import Mathlib

/-!
Verification of the vhs-teletext CLI packet pipeline, embedded from
`teletext/cli.py` and `teletext/celp.py`.  Components of the repository that
those files use but whose sources are absent (`teletext/file.py`,
`teletext/packet.py`, `teletext/coding.py`, `teletext/pipeline.py`,
`teletext/vbi/line.py`) are modelled from the specification and marked as such
in their doc comments.
-/

namespace Teletext

/-- Python `range(start, stop, step)` element count for a positive `step`. -/
def pyRangeLen (start stop step : Nat) : Nat :=
  if stop ≤ start then 0 else (stop - start + step - 1) / step

/-- Python `range(start, stop, step)` for a positive `step`. -/
def pyRange (start stop step : Nat) : List Nat :=
  List.range' start (pyRangeLen start stop step) step

/-- Python slice `l[a:b]` (with `0 ≤ a ≤ b`) on a byte string. -/
def pySlice (l : List Nat) (a b : Nat) : List Nat :=
  (l.take b).drop a

/-- Modelled from the spec: `FileChunker` (`teletext/file.py`, which is not in
`src/`).  Spec §4.8: emits a lazy sequence of `(index, bytes[chunk_size])`
pairs where `index` starts at `start`, increments by `step`, and the sequence
halts at `stop`, after `limit` chunks (whichever first), or at EOF; short
final chunks are discarded.  `stop = none` and `limit = none` mean unbounded
(the Python defaults). -/
def FileChunker (stream : List Nat) (size start : Nat) (stop : Option Nat)
    (step : Nat) (limit : Option Nat) : List (Nat × List Nat) :=
  let stopN := stop.getD (stream.length / size + 1)
  let full := (pyRange start stopN step).filterMap fun i =>
    let c := pySlice stream (i * size) ((i + 1) * size)
    if c.length = size then some (i, c) else none
  match limit with
  | some l => full.take l
  | none => full

/-- Modelled from the spec: the Hamming 8/4 code table
(`teletext/coding.py`, not in `src/`).  Spec §4.2 requires the standard
table-driven teletext 8/4 Hamming code; this is the standard encode table. -/
def hamming8_encode (n : Nat) : Nat :=
  [0x15, 0x02, 0x49, 0x5e, 0x64, 0x73, 0x38, 0x2f,
   0xd0, 0xc7, 0x8c, 0x9b, 0xa1, 0xb6, 0xfd, 0xea].getD n 0

/-- Number of set bits among the low eight bits. -/
def popcount8 (x : Nat) : Nat :=
  ((List.range 8).map fun i => (x >>> i) &&& 1).sum

/-- Modelled from the spec: `hamming8_decode` (`teletext/coding.py`, not in
`src/`).  Spec §4.2: standard 8/4 Hamming decode correcting single-bit errors.
We return the corrected nibble; a byte further than one bit from every
codeword decodes to 0 (no claim settled here depends on the error count, so
it is not modelled). -/
def hamming8_decode (b : Nat) : Nat :=
  (((List.range 16).find? fun n =>
      decide (popcount8 (b ^^^ hamming8_encode n) ≤ 1)).getD 0)

/-- A framed teletext packet: the payload byte string (`_array` in the Python
source) plus the sequence number it was constructed with. -/
structure Packet where
  _array : List Nat
  number : Nat
deriving DecidableEq

/-- A decoded magazine/row address group. -/
structure MRAG where
  magazine : Nat
  row : Nat
deriving DecidableEq

/-- Modelled from the spec: `Packet.mrag` (`teletext/packet.py`, not in
`src/`).  Spec §4.4: bytes 0 and 1 decode as two Hamming 8/4 nibbles giving
`(magazine, row)`, with magazine value 0 remapped to 8.  The first nibble
carries the three magazine bits and the row's least significant bit, the
second nibble the remaining four row bits. -/
def Packet.mrag (p : Packet) : MRAG :=
  let n0 := hamming8_decode (p._array.getD 0 0)
  let n1 := hamming8_decode (p._array.getD 1 0)
  let mag := n0 &&& 7
  { magazine := if mag = 0 then 8 else mag
    row := (n0 >>> 3) ||| (n1 <<< 1) }

/-- A Python value as it appears inside the tuples yielded by `FileChunker`:
either an `int` (the chunk index) or a `bytes` object (the chunk payload). -/
inductive PyVal where
  | int : Nat → PyVal
  | bytes : List Nat → PyVal
deriving DecidableEq

/-- The chunk stage of `packetreader` (cli.py lines 110-114).  `FileChunker`
yields `(number, data)` tuples — cli.py line 124 and line 315 unpack them as
such — and we model each yielded item as the two-element Python tuple
`(int number, bytes data)`, a tuple being a list of `PyVal`.  With `--wst` the
code reads 43-byte chunks and maps `c[:42]` over them: Python tuple slicing
takes the first 42 *elements* of the tuple, and a 2-tuple has only two, so the
slice returns the tuple — including its full 43-byte payload — unchanged. -/
def packetreaderChunks (input : List Nat) (wst : Bool) : List (List PyVal) :=
  if wst then
    (FileChunker input 43 0 none 1 none).map fun c =>
      [PyVal.int c.1, PyVal.bytes c.2].take 42
  else
    (FileChunker input 42 0 none 1 none).map fun c =>
      [PyVal.int c.1, PyVal.bytes c.2]

/-- The packet stage of `packetreader` (cli.py lines 124-125): construct
`Packet(data, number)` from each `(number, data)` tuple and keep only packets
whose decoded MRAG passes the magazine and row filters.  (The progress-bar
wrapping on lines 116-135 passes items through unchanged and is not
modelled.) -/
def packetreaderPackets (input : List Nat) (wst : Bool) (mags rows : List Nat) :
    List Packet :=
  let packets := (packetreaderChunks input wst).filterMap fun c =>
    match c with
    | [PyVal.int number, PyVal.bytes data] => some (Packet.mk data number)
    | _ => none
  packets.filter fun p => mags.contains p.mrag.magazine && rows.contains p.mrag.row

/-- Modelled from the spec: the byte-level contract of `Line.slice` and
`Line.deconvolve` (`teletext/vbi/line.py`, not in `src/`).  Spec §4.3: after
bit recovery assembles 45 bytes, validate the framing code 0xe4 (byte 2 of the
clock-run-in + framing prefix), decode the MRAG; if `magazine ∉ mags` or
`row ∉ rows` return None (cheap reject), otherwise return
`Packet(bytes[3..45])`.  The sample-level DSP that produces the 45 bytes is
outside this model; we start from the recovered byte string of one line. -/
def lineSlice (bytes : List Nat) (number : Nat) (mags rows : List Nat) :
    Option Packet :=
  if bytes.getD 2 0 = 0xe4 then
    let p := Packet.mk (pySlice bytes 3 45) number
    if mags.contains p.mrag.magazine && rows.contains p.mrag.row then some p
    else none
  else none

/-- The packet stage shared by the `slice` and `deconvolve` commands
(cli.py lines 385-386 and 430-431): run the per-line bit recovery and drop the
`None` results, so rejected lines never reach a downstream stage. -/
def slicePackets (lines : List (List Nat × Nat)) (mags rows : List Nat) :
    List Packet :=
  (lines.map fun l => lineSlice l.1 l.2 mags rows).filterMap id

/-- The per-packet extraction performed by `celp_print` (celp.py lines 27-34),
arranged as the `(dcn, service, control, frame0, frame1)` hook tuples the spec
describes (the yielding wrapper itself is not in `src/`; every component value
is taken verbatim from `celp_print`): packets with `magazine == 4` and
`row ∈ rows` yield `dcn = magazine + ((row & 1) << 3)`,
`control = hamming8_decode(_array[2])`, `service = hamming8_decode(_array[3])`,
`frame0 = _array[4:23]` and `frame1 = _array[23:42]`; other packets yield
nothing. -/
def celp_hook (packets : List Packet) (rows : List Nat) :
    List (Nat × Nat × Nat × List Nat × List Nat) :=
  packets.filterMap fun p =>
    if p.mrag.magazine = 4 ∧ p.mrag.row ∈ rows then
      some (p.mrag.magazine + ((p.mrag.row &&& 1) <<< 3),
            hamming8_decode (p._array.getD 3 0),
            hamming8_decode (p._array.getD 2 0),
            pySlice p._array 4 23,
            pySlice p._array 23 42)
    else none

/-- The CELP frame bit-field widths, copied from `celp_plot` (celp.py lines
62-71) and `celp_generate_audio` (celp.py lines 115-124); the leading 0 seeds
the `np.cumsum` that turns widths into field offsets. -/
def celp_widths : List Nat :=
  [0,
   3, 4, 4, 4, 4, 4, 4, 4, 3, 3,
   5, 5, 5, 5,
   5, 5, 5, 5,
   7, 7, 7, 7,
   8, 8, 8, 8,
   3, 3, 3, 3,
   3]

/-- `np.unpackbits(bytes, bitorder='little')` (celp.py lines 56 and 106):
each byte expands to eight bits, least significant bit first. -/
def unpackbits_little (bytes : List Nat) : List Nat :=
  bytes.flatMap fun b => (List.range 8).map fun i => (b >>> i) &&& 1

/-- `np.packbits(bits, bitorder='little')` collapsed to one value (celp.py
line 141, where each field slice is at most 8 bits): the first bit of the
slice is the least significant. -/
def packbits_little (bits : List Nat) : Nat :=
  bits.foldr (fun b acc => b + 2 * acc) 0

/-- The field-offset table `g = np.cumsum(widths)` (celp.py line 125). -/
def celp_offset (n : Nat) : Nat := (celp_widths.take (n + 1)).sum

/-- The field decode loop of `celp_generate_audio` (celp.py lines 138-141):
field `n` is `np.packbits(raw_frame[g[n]:g[n+1]], bitorder='little')`. -/
def celp_fields (raw_frame : List Nat) : List Nat :=
  (List.range (celp_widths.length - 2)).map fun n =>
    packbits_little (pySlice raw_frame (celp_offset n) (celp_offset (n + 1)))

/-- `struct.unpack('<I', chunk[-4:])` as used by `record` (cli.py line 317):
the little-endian unsigned 32-bit integer held in the last four bytes of a
chunk. -/
def seq_of_chunk (chunk : List Nat) : Nat :=
  (chunk.drop (chunk.length - 4)).foldr (fun b acc => b + 256 * acc) 0

/-- The frame loop of the `record` command (cli.py lines 311-321): walk the
frames carrying `prev_seq` (initially `None`) and the `dropped` counter
(initially 0); for each frame decode `seq` and, when a previous frame exists
and `seq != prev_seq + 1`, increment `dropped`. -/
def record_loop : Option Nat → Nat → List (List Nat) → Nat
  | _, dropped, [] => dropped
  | prev_seq, dropped, chunk :: rest =>
    record_loop (some (seq_of_chunk chunk))
      (match prev_seq with
       | some ps => if seq_of_chunk chunk ≠ ps + 1 then dropped + 1 else dropped
       | none => dropped) rest

/-- The number of adjacent frame pairs whose sequence numbers do not
increase by exactly one — the claim's characterisation of flagged drops. -/
def seqMismatches : List (List Nat) → Nat
  | a :: b :: rest =>
    (if seq_of_chunk b ≠ seq_of_chunk a + 1 then 1 else 0)
      + seqMismatches (b :: rest)
  | _ => 0

/-- The `record` command's dropped-frame count (cli.py lines 308-321): the
device stream is chunked into frames of `config.line_length * 32` bytes (all
other `FileChunker` parameters at their defaults) and fed to the frame
loop. -/
def record_dropped (stream : List Nat) (line_length : Nat) : Nat :=
  record_loop none 0
    ((FileChunker stream (line_length * 32) 0 none 1 none).map Prod.snd)

/-- The outcome of loading an optional module: loaded, or a
`ModuleNotFoundError` carrying the failing module's `name` and `msg`. -/
inductive ModuleLoad where
  | loaded
  | missing (name msg : String)
deriving DecidableEq

/-- What a guarded command does after the module load: run normally, reject
with `click.UsageError`, or re-raise the original error. -/
inductive CommandOutcome where
  | runs
  | usageError (msg : String)
  | reraised (name msg : String)
deriving DecidableEq

/-- The optional-module guard of `spellcheck` (cli.py lines 236-244): a
`ModuleNotFoundError` whose name is `enchant` becomes a `click.UsageError`
with the message built on line 240; any other module error is re-raised; a
successful load runs the command. -/
def spellcheck_guard : ModuleLoad → CommandOutcome
  | .loaded => .runs
  | .missing name msg =>
    if name = "enchant" then
      .usageError
        (msg ++ ". PyEnchant is not installed. Spelling checker is not available.")
    else .reraised name msg

/-- The optional-module guard of `vbiview` (cli.py lines 334-340): a
`ModuleNotFoundError` whose name starts with `OpenGL` becomes a
`click.UsageError` with the message built on line 338; any other module
error is re-raised; a successful load runs the command. -/
def vbiview_guard : ModuleLoad → CommandOutcome
  | .loaded => .runs
  | .missing name msg =>
    if name.startsWith "OpenGL" then
      .usageError
        (msg ++ ". PyOpenGL is not installed. VBI viewer is not available.")
    else .reraised name msg

/-- How a CLI command invocation ends: a normal return or a raised
`click.UsageError`. -/
inductive CliResult where
  | ok
  | usageError (msg : String)
deriving DecidableEq

/-- Modelled from the spec: the exit-code mapping ("Exit code 0 on clean EOF
or SIGINT; non-zero on unreadable input or invalid config", spec §6).  The
translation of a raised `click.UsageError` into a process exit code happens
inside the click framework, outside this repository; click uses exit code 2
for usage errors and 0 for a normal return. -/
def exit_code : CliResult → Nat
  | .ok => 0
  | .usageError _ => 2

/-- The tty guard of `chunkreader` (cli.py lines 87-90): when the input
stream is an interactive terminal the wrapper raises `click.UsageError`
before the `FileChunker` is even constructed, so no data is read; otherwise
the wrapped command runs on the chunked stream.  The second component counts
the bytes of input consumed. -/
def chunkreader_run (isatty : Bool) (stream : List Nat) : CliResult × Nat :=
  if isatty then (.usageError "No input file and stdin is a tty - exiting.", 0)
  else (.ok, stream.length)

/-- The exception behaviour of `record` (cli.py lines 314-324): SIGINT may
interrupt the frame loop after any number of frames (`interrupt = some k`),
or the stream may end first (`none`); the `except KeyboardInterrupt: pass`
handler swallows the interrupt, so the command returns normally in both
cases, with whatever drop count the loop had reached. -/
def record_run (frames : List (List Nat)) (interrupt : Option Nat) :
    CliResult × Nat :=
  match interrupt with
  | some k => (.ok, record_loop none 0 (frames.take k))
  | none => (.ok, record_loop none 0 frames)

/-- Where the `filter` command routes its packet stream: through
`pipeline.paginate` with the given page and subpage sets, or straight
through. -/
inductive StreamOutput where
  | paginated (pages subpages : List Nat)
  | passthrough
deriving DecidableEq

/-- The pagination dispatch of the `filter` command (cli.py lines 178-198).
The `-p`/`-s` option values arrive as hex strings parsed with `int(x, 16)`;
we take the already-parsed numeric values.  An empty option list selects the
default `range(0x900)` or `range(0x3f7f)`; a non-empty one replaces the
default and forces `paginate = True`.  The result records whether the stream
goes through `pipeline.paginate` (and with which sets) or is yielded
unpaginated. -/
def filter_dispatch (pages subpages : List Nat) (paginate_flag : Bool) :
    StreamOutput :=
  let pagesA := if pages.isEmpty then List.range 0x900 else pages
  let pag1 := if pages.isEmpty then paginate_flag else true
  let subpagesA := if subpages.isEmpty then List.range 0x3f7f else subpages
  let pag2 := if subpages.isEmpty then pag1 else true
  if pag2 then StreamOutput.paginated pagesA subpagesA else .passthrough

/-- The page defaulting of the `squash` command (cli.py lines 211-214). -/
def squash_pages (pages : List Nat) : List Nat :=
  if pages.isEmpty then List.range 0x900 else pages

/-- The subpage defaulting of the `squash` command (cli.py lines 216-219). -/
def squash_subpages (subpages : List Nat) : List Nat :=
  if subpages.isEmpty then List.range 0x3f7f else subpages

/-- Modelled from the spec: `paginate`'s header acceptance test
(`teletext/pipeline.py`, not in `src/`).  Spec §4.5: in state IDLE, a row-0
packet opens a subpage iff its `page ∈ pages` and `subpage ∈ subpages`. -/
def paginate_accepts (pages subpages : List Nat) (page subpage : Nat) : Bool :=
  pages.contains page && subpages.contains subpage

set_option maxRecDepth 8192

/-- C1: the claim says that with `--wst` the packet reader reads 43-byte
chunks and exposes only the first 42 payload bytes downstream, a 129-byte
input yielding 3 packets of 42 payload bytes.  The code reads 43-byte chunks
but the trim `c[:42]` (cli.py line 112) slices the `(number, data)` tuple
yielded by `FileChunker`, not the byte string inside it, which leaves the
tuple unchanged: a 129-byte input yields 3 packets whose payloads are 43
bytes long, the 43rd byte of each chunk included. -/
theorem C1_wst_payload_not_trimmed :
    (packetreaderPackets (List.replicate 129 0) true (List.range 9)
        (List.range 32)).length = 3 ∧
    (packetreaderPackets (List.replicate 129 0) true (List.range 9)
        (List.range 32)).map (fun p => p._array.length) = [43, 43, 43] := by
  decide

/-- C2: every packet emitted by the packet-reading pipelines — the t42
`packetreader` path and the `slice` / `deconvolve` commands — has a decoded
MRAG with `magazine ∈ mags` and `row ∈ rows`; packets failing the filter are
removed from the stream (returned as None / filtered out) and never reach a
downstream stage. -/
theorem C2_mrag_filter (input : List Nat) (wst : Bool) (mags rows : List Nat)
    (lines : List (List Nat × Nat)) :
    (∀ p ∈ packetreaderPackets input wst mags rows,
        p.mrag.magazine ∈ mags ∧ p.mrag.row ∈ rows) ∧
    (∀ p ∈ slicePackets lines mags rows,
        p.mrag.magazine ∈ mags ∧ p.mrag.row ∈ rows) := by
  constructor
  · intro p hp
    unfold packetreaderPackets at hp
    rw [List.mem_filter, Bool.and_eq_true] at hp
    exact ⟨List.elem_iff.mp hp.2.1, List.elem_iff.mp hp.2.2⟩
  · intro p hp
    unfold slicePackets at hp
    rw [List.mem_filterMap] at hp
    obtain ⟨op, hmem, hop⟩ := hp
    simp only [id] at hop
    subst hop
    rw [List.mem_map] at hmem
    obtain ⟨l, -, hl⟩ := hmem
    unfold lineSlice at hl
    split at hl
    · dsimp only at hl
      split at hl
      · next hcond =>
        rw [Bool.and_eq_true] at hcond
        injection hl with h
        subst h
        exact ⟨List.elem_iff.mp hcond.1, List.elem_iff.mp hcond.2⟩
      · exact absurd hl (by simp)
    · exact absurd hl (by simp)

/-- Witness for C2 at concrete inputs: a 42-byte zero chunk decodes to MRAG
magazine 1, row 2 and survives the `packetreader` filter for
`mags = [1], rows = [2]`; a 45-byte line with the framing code 0xe4 and a
zero payload survives the `slice` path for the same filter. -/
theorem C2_mrag_filter_witness :
    ((Packet.mk (List.replicate 42 0) 0).mrag.magazine ∈ [1] ∧
     (Packet.mk (List.replicate 42 0) 0).mrag.row ∈ [2]) ∧
    ((Packet.mk (List.replicate 42 0) 7).mrag.magazine ∈ [1] ∧
     (Packet.mk (List.replicate 42 0) 7).mrag.row ∈ [2]) :=
  ⟨(C2_mrag_filter (List.replicate 42 0) false [1] [2] []).1 _ (by decide),
   (C2_mrag_filter [] false [1] [2]
      [([0x55, 0x55, 0xe4] ++ List.replicate 42 0, 7)]).2 _ (by decide)⟩

/-- C3: for every packet with `magazine == 4` and `row` in the selected row
set, the CELP hook yields `(dcn, service, control, frame0, frame1)` with
`dcn = magazine + ((row & 1) << 3)`, `control` the Hamming 8/4 decode of
payload byte 2, `service` the Hamming 8/4 decode of payload byte 3, `frame0`
payload bytes 4-22 (19 bytes) and `frame1` payload bytes 23-41 (19 bytes);
packets not matching magazine 4 and the row set produce nothing. -/
theorem C3_celp_hook_fields (packets : List Packet) (rows : List Nat) :
    (celp_hook packets rows = packets.filterMap fun p =>
      if p.mrag.magazine = 4 ∧ p.mrag.row ∈ rows then
        some (p.mrag.magazine + ((p.mrag.row &&& 1) <<< 3),
              hamming8_decode (p._array.getD 3 0),
              hamming8_decode (p._array.getD 2 0),
              (p._array.drop 4).take 19,
              (p._array.drop 23).take 19)
      else none) ∧
    (∀ p : Packet, p._array.length = 42 →
      ((p._array.drop 4).take 19).length = 19 ∧
      ((p._array.drop 23).take 19).length = 19) ∧
    (∀ p : Packet, ¬(p.mrag.magazine = 4 ∧ p.mrag.row ∈ rows) →
      celp_hook [p] rows = []) := by
  refine ⟨?_, ?_, ?_⟩
  · unfold celp_hook
    congr 1
    funext p
    simp [pySlice, List.drop_take]
  · intro p h
    constructor <;> simp [h]
  · intro p h
    simp [celp_hook, h]

/-- Witness for C3: the zero packet decodes to MRAG magazine 1 ≠ 4, so the
hook yields nothing for it, and its 42-byte payload slices to 19-byte
frames. -/
theorem C3_celp_hook_fields_witness :
    (((Packet.mk (List.replicate 42 0) 0)._array.drop 4).take 19).length = 19 ∧
    celp_hook [Packet.mk (List.replicate 42 0) 0] [0] = [] :=
  ⟨((C3_celp_hook_fields [] []).2.1 (Packet.mk (List.replicate 42 0) 0)
      (by decide)).1,
   (C3_celp_hook_fields [] [0]).2.2 (Packet.mk (List.replicate 42 0) 0)
      (by decide)⟩

/-- If `f` returns `some (g a)` on every element of `l`, then `filterMap f`
agrees with `map g` on `l`. -/
theorem filterMap_eq_map_of_some {α β : Type} {l : List α} {f : α → Option β}
    {g : α → β} (h : ∀ a ∈ l, f a = some (g a)) : l.filterMap f = l.map g := by
  induction l with
  | nil => rfl
  | cons a t ih =>
    rw [List.filterMap_cons, h a (List.mem_cons_self a t), List.map_cons,
        ih fun x hx => h x (List.mem_cons_of_mem a hx)]

/-- Every index produced by `pyRange` lies below `stop`. -/
theorem pyRange_lt_stop (start stop step : Nat) :
    ∀ i ∈ pyRange start stop step, i < stop := by
  intro i hi
  unfold pyRange pyRangeLen at hi
  rw [List.mem_range'] at hi
  obtain ⟨k, hk, rfl⟩ := hi
  split at hk
  · omega
  · next hlt =>
    have h1 : (k + 1) * step ≤ ((stop - start + step - 1) / step) * step :=
      Nat.mul_le_mul_right step hk
    have h2 : ((stop - start + step - 1) / step) * step
        ≤ stop - start + step - 1 := Nat.div_mul_le_self _ _
    have h3 : (k + 1) * step = step * k + step := by ring
    omega

/-- When the stream holds at least `stop` full chunks, every chunk selected by
`pyRange` is full. -/
theorem pyRange_chunk_full (stream : List Nat) (size start stop step : Nat)
    (hlong : stop * size ≤ stream.length) :
    ∀ i ∈ pyRange start stop step,
      (pySlice stream (i * size) ((i + 1) * size)).length = size := by
  intro i hi
  have h1 : (i + 1) * size ≤ stream.length :=
    le_trans (Nat.mul_le_mul_right size (pyRange_lt_stop start stop step i hi))
      hlong
  unfold pySlice
  rw [List.length_drop, List.length_take]
  have h2 : (i + 1) * size = i * size + size := by ring
  omega

/-- On a sufficiently long stream, `FileChunker` reduces to mapping the full
chunks over the selected indices and truncating at `limit`. -/
theorem FileChunker_eq_map_take (stream : List Nat)
    (size start stop step limit : Nat) (hlong : stop * size ≤ stream.length) :
    FileChunker stream size start (some stop) step (some limit)
      = ((pyRange start stop step).map
          (fun i => (i, pySlice stream (i * size) ((i + 1) * size)))).take limit := by
  unfold FileChunker
  dsimp only [Option.getD]
  rw [filterMap_eq_map_of_some]
  intro i hi
  dsimp only
  rw [if_pos (pyRange_chunk_full stream size start stop step hlong i hi)]

/-- C4 (amended): `FileChunker`, constructed with
`(input, chunk_size, start, stop, step, limit)`, emits exactly
`min(limit, ceil((stop-start)/step))` chunks when the stream is long enough
(`pyRangeLen` is that ceiling count), as a sequence of
`(index, bytes[chunk_size])` pairs whose `index` starts at `start` and
increments by `step`; a short final chunk at EOF is discarded, never
emitted. -/
theorem C4_chunk_count (stream : List Nat) (size start stop step limit : Nat)
    (hlong : stop * size ≤ stream.length) :
    (FileChunker stream size start (some stop) step (some limit)).length
      = min limit (pyRangeLen start stop step) ∧
    ∀ k (hk : k < (FileChunker stream size start (some stop) step
        (some limit)).length),
      ((FileChunker stream size start (some stop) step (some limit)).get
          ⟨k, hk⟩).1 = start + step * k ∧
      ((FileChunker stream size start (some stop) step (some limit)).get
          ⟨k, hk⟩).2.length = size := by
  have hEq := FileChunker_eq_map_take stream size start stop step limit hlong
  constructor
  · rw [hEq, List.length_take, List.length_map]
    unfold pyRange
    rw [List.length_range']
  · intro k hk
    have hk' : k < (pyRange start stop step).length := by
      rw [hEq, List.length_take, List.length_map] at hk
      omega
    constructor
    · simp only [hEq, List.get_eq_getElem, List.getElem_take, List.getElem_map,
        pyRange, List.getElem_range']
    · simp only [hEq, List.get_eq_getElem, List.getElem_take, List.getElem_map]
      exact pyRange_chunk_full stream size start stop step hlong _
        (List.getElem_mem _)

/-- Counterexample for C4 as stated: with `start = 0`, `stop = 5`, `step = 2`
and a stream of 5 one-byte chunks, the chunker emits the indices 0, 2, 4 —
three chunks — while `min(limit, floor((stop-start)/step)) = min(100, 2) = 2`:
the floor in the claimed count is wrong when `step` does not divide
`stop - start`. -/
theorem C4_floor_count_counterexample :
    ¬((FileChunker (List.replicate 5 0) 1 0 (some 5) 2 (some 100)).length
        = min 100 ((5 - 0) / 2)) := by decide

/-- Witness for C4 (amended) at the same concrete input: 3 chunks
(`pyRangeLen 0 5 2 = 3`), and the chunk at position 1 carries index
`0 + 2 * 1`. -/
theorem C4_chunk_count_witness :
    (FileChunker (List.replicate 5 0) 1 0 (some 5) 2 (some 100)).length
      = min 100 (pyRangeLen 0 5 2) ∧
    ((FileChunker (List.replicate 5 0) 1 0 (some 5) 2 (some 100)).get
        ⟨1, by decide⟩).1 = 0 + 2 * 1 :=
  ⟨(C4_chunk_count (List.replicate 5 0) 1 0 5 2 100 (by decide)).1,
   ((C4_chunk_count (List.replicate 5 0) 1 0 5 2 100 (by decide)).2 1
      (by decide)).1⟩

/-- Carrying a previous sequence number through `record_loop` counts exactly
the adjacent mismatches of the remaining frames. -/
theorem record_loop_eq (rest : List (List Nat)) :
    ∀ (a : List Nat) (d : Nat),
      record_loop (some (seq_of_chunk a)) d rest = d + seqMismatches (a :: rest) := by
  induction rest with
  | nil =>
    intro a d
    show d = d + seqMismatches [a]
    show d = d + 0
    omega
  | cons b rs ih =>
    intro a d
    show record_loop (some (seq_of_chunk b))
        (if seq_of_chunk b ≠ seq_of_chunk a + 1 then d + 1 else d) rs
      = d + seqMismatches (a :: b :: rs)
    rw [ih b]
    show _ = d + ((if seq_of_chunk b ≠ seq_of_chunk a + 1 then 1 else 0)
      + seqMismatches (b :: rs))
    split <;> omega

/-- A four-element fold of base-256 digits, least significant first. -/
theorem foldr_seq4 (l : List Nat) (h : l.length = 4) :
    l.foldr (fun b acc => b + 256 * acc) 0
      = l.getD 0 0 + 256 * l.getD 1 0 + 65536 * l.getD 2 0
        + 16777216 * l.getD 3 0 := by
  rcases l with - | ⟨a, - | ⟨b, - | ⟨c, - | ⟨d, - | ⟨e, t⟩⟩⟩⟩⟩ <;>
    simp_all [List.getD]
  ring

/-- C5: in the `record` command each frame read is 32 lines × `line_length`
bytes; the final 4 bytes of a frame decode as a little-endian unsigned 32-bit
sequence number; and a frame drop is flagged exactly when a frame's sequence
number differs from the previous frame's sequence number plus one (the
`dropped` counter equals the number of such adjacent pairs). -/
theorem C5_record (stream : List Nat) (line_length : Nat) :
    (record_dropped stream line_length
       = seqMismatches
           ((FileChunker stream (line_length * 32) 0 none 1 none).map Prod.snd)) ∧
    (∀ c ∈ FileChunker stream (line_length * 32) 0 none 1 none,
        c.2.length = line_length * 32) ∧
    (∀ chunk : List Nat, 4 ≤ chunk.length →
        seq_of_chunk chunk
          = chunk.getD (chunk.length - 4) 0
            + 256 * chunk.getD (chunk.length - 3) 0
            + 65536 * chunk.getD (chunk.length - 2) 0
            + 16777216 * chunk.getD (chunk.length - 1) 0) := by
  refine ⟨?_, ?_, ?_⟩
  · unfold record_dropped
    generalize (FileChunker stream (line_length * 32) 0 none 1 none).map Prod.snd
      = frames
    cases frames with
    | nil => rfl
    | cons a rest =>
      show record_loop (some (seq_of_chunk a)) 0 rest = seqMismatches (a :: rest)
      rw [record_loop_eq rest a 0, Nat.zero_add]
  · intro c hc
    unfold FileChunker at hc
    rw [List.mem_filterMap] at hc
    obtain ⟨i, -, hi⟩ := hc
    dsimp only at hi
    split at hi
    · next h =>
      injection hi with h2
      subst h2
      exact h
    · exact absurd hi (by simp)
  · intro chunk hc
    have hlen : (chunk.drop (chunk.length - 4)).length = 4 := by
      rw [List.length_drop]; omega
    unfold seq_of_chunk
    rw [foldr_seq4 _ hlen]
    have hg : ∀ i, (chunk.drop (chunk.length - 4)).getD i 0
        = chunk.getD (chunk.length - 4 + i) 0 := by
      intro i
      rw [List.getD_eq_getElem?_getD, List.getD_eq_getElem?_getD,
        List.getElem?_drop]
    rw [hg 0, hg 1, hg 2, hg 3]
    have e0 : chunk.length - 4 + 0 = chunk.length - 4 := by omega
    have e1 : chunk.length - 4 + 1 = chunk.length - 3 := by omega
    have e2 : chunk.length - 4 + 2 = chunk.length - 2 := by omega
    have e3 : chunk.length - 4 + 3 = chunk.length - 1 := by omega
    rw [e0, e1, e2, e3]

/-- Witness for C5: a 64-byte zero stream with `line_length = 1` produces full
32-byte frames, and the little-endian decode formula holds on it. -/
theorem C5_record_witness :
    (((0 : Nat), List.replicate 32 (0 : Nat)).2.length = 1 * 32) ∧
    (seq_of_chunk (List.replicate 64 (0 : Nat))
       = (List.replicate 64 (0 : Nat)).getD 60 0
         + 256 * (List.replicate 64 (0 : Nat)).getD 61 0
         + 65536 * (List.replicate 64 (0 : Nat)).getD 62 0
         + 16777216 * (List.replicate 64 (0 : Nat)).getD 63 0) :=
  ⟨(C5_record (List.replicate 64 0) 1).2.1 (0, List.replicate 32 0) (by decide),
   (C5_record [] 0).2.2 (List.replicate 64 0) (by decide)⟩

/-- The witness lengths are stable under `unpackbits`: each byte contributes
eight bits. -/
theorem unpackbits_little_length (bytes : List Nat) :
    (unpackbits_little bytes).length = 8 * bytes.length := by
  induction bytes with
  | nil => rfl
  | cons b bs ih =>
    rw [unpackbits_little, List.flatMap_cons, List.length_append,
      List.length_map, List.length_range]
    rw [unpackbits_little] at ih
    rw [ih, List.length_cons]
    ring

/-- `packbits_little` reads its slice little-endian: bit `i` of the slice has
weight `2 ^ i`. -/
theorem packbits_little_eq_sum (bits : List Nat) :
    packbits_little bits
      = ∑ i ∈ Finset.range bits.length, bits.getD i 0 * 2 ^ i := by
  induction bits with
  | nil => rfl
  | cons b bs ih =>
    show b + 2 * packbits_little bs = _
    rw [ih, List.length_cons, Finset.sum_range_succ']
    simp only [List.getD_cons_succ, List.getD_cons_zero, pow_zero, mul_one,
      pow_succ]
    have h2 : ∑ k ∈ Finset.range bs.length, bs.getD k 0 * (2 ^ k * 2)
        = 2 * ∑ k ∈ Finset.range bs.length, bs.getD k 0 * 2 ^ k := by
      rw [Finset.mul_sum]
      exact Finset.sum_congr rfl fun k _ => by ring
    rw [h2]
    omega

/-- `unpackbits_little` expands bytes LSB-first: bit `j` of the bit stream is
bit `j % 8` of byte `j / 8`. -/
theorem unpackbits_little_getD (bytes : List Nat) :
    ∀ j, j < 8 * bytes.length →
      (unpackbits_little bytes).getD j 0
        = (bytes.getD (j / 8) 0 >>> (j % 8)) &&& 1 := by
  induction bytes with
  | nil => intro j hj; simp at hj
  | cons b bs ih =>
    intro j hj
    rw [unpackbits_little, List.flatMap_cons]
    by_cases h8 : j < 8
    · rw [List.getD_append _ _ _ _ (by simpa using h8)]
      have hv : ((List.range 8).map fun i => (b >>> i) &&& 1).getD j 0
          = (b >>> j) &&& 1 := by
        rw [List.getD_eq_getElem?_getD, List.getElem?_map,
          List.getElem?_range h8]
        rfl
      rw [hv, Nat.div_eq_of_lt h8, Nat.mod_eq_of_lt h8, List.getD_cons_zero]
    · push_neg at h8
      obtain ⟨k, rfl⟩ : ∃ k, j = k + 8 := ⟨j - 8, by omega⟩
      rw [List.getD_append_right _ _ _ _ (by simp)]
      simp only [List.length_map, List.length_range, Nat.add_sub_cancel]
      rw [unpackbits_little] at ih
      rw [ih k (by rw [List.length_cons] at hj; omega),
        Nat.add_div_right _ (by norm_num), Nat.add_mod_right,
        List.getD_cons_succ]

/-- C6: the 152-bit CELP frame layout has field widths, in order,
3,4,4,4,4,4,4,4,3,3 (the 10 LSF parameters, 37 bits in total), then four
5-bit pitch gains, four 5-bit vector gains, four 7-bit pitch indices, four
8-bit vector indices, four 3-bit error-correction fields and one final 3-bit
padding field, summing to exactly 152 bits; bits are taken little-endian
within each field — bytes expand to bits LSB-first and a field slice packs
with its first bit as the least significant. -/
theorem C6_celp_bit_layout :
    (celp_widths = 0 :: ([3, 4, 4, 4, 4, 4, 4, 4, 3, 3]
        ++ List.replicate 4 5 ++ List.replicate 4 5 ++ List.replicate 4 7
        ++ List.replicate 4 8 ++ List.replicate 4 3 ++ [3])) ∧
    (([3, 4, 4, 4, 4, 4, 4, 4, 3, 3] : List Nat).sum = 37) ∧
    (celp_widths.sum = 152) ∧
    (celp_offset 10 = 37 ∧ celp_offset 31 = 152) ∧
    (∀ bytes : List Nat, (unpackbits_little bytes).length = 8 * bytes.length) ∧
    (∀ bits : List Nat, packbits_little bits
        = ∑ i ∈ Finset.range bits.length, bits.getD i 0 * 2 ^ i) ∧
    (∀ (bytes : List Nat) (j : Nat), j < 8 * bytes.length →
        (unpackbits_little bytes).getD j 0
          = (bytes.getD (j / 8) 0 >>> (j % 8)) &&& 1) :=
  ⟨by decide, by decide, by decide, ⟨by decide, by decide⟩,
   unpackbits_little_length, packbits_little_eq_sum, unpackbits_little_getD⟩

/-- Witness for C6's quantified little-endian facts at a concrete byte:
bit 5 of the one-byte stream `[0xe4]` is bit 5 of byte 0. -/
theorem C6_celp_bit_layout_witness :
    (unpackbits_little [0xe4]).getD 5 0
      = (([0xe4] : List Nat).getD (5 / 8) 0 >>> (5 % 8)) &&& 1 :=
  C6_celp_bit_layout.2.2.2.2.2.2 [0xe4] 5 (by decide)

/-- Membership in a `List.range` literal, kept symbolic so that the large
default ranges are never evaluated element by element. -/
theorem contains_range_eq (n a : Nat) :
    (List.range n).contains a = decide (a < n) := by
  rw [show (List.range n).contains a = List.elem a (List.range n) from rfl,
    List.elem_eq_mem]
  simp [List.mem_range]

/-- C7: a missing optional module — `enchant` (PyEnchant) for `spellcheck`,
any `OpenGL*` module (PyOpenGL) for `vbiview` — is turned into a
`click.UsageError` whose message names the missing feature, never an
unhandled import failure; a `ModuleNotFoundError` for any other module is
re-raised unchanged. -/
theorem C7_optional_modules (name msg : String) :
    (spellcheck_guard .loaded = .runs ∧ vbiview_guard .loaded = .runs) ∧
    (spellcheck_guard (.missing "enchant" msg)
        = .usageError (msg ++
            ". PyEnchant is not installed. Spelling checker is not available.")) ∧
    (name ≠ "enchant" →
        spellcheck_guard (.missing name msg) = .reraised name msg) ∧
    (name.startsWith "OpenGL" = true →
        vbiview_guard (.missing name msg)
          = .usageError (msg ++
              ". PyOpenGL is not installed. VBI viewer is not available.")) ∧
    (name.startsWith "OpenGL" = false →
        vbiview_guard (.missing name msg) = .reraised name msg) := by
  refine ⟨⟨rfl, rfl⟩, ?_, ?_, ?_, ?_⟩
  · simp [spellcheck_guard]
  · intro h
    simp [spellcheck_guard, h]
  · intro h
    simp [vbiview_guard, h]
  · intro h
    simp [vbiview_guard, h]

/-- Witness for C7 at a concrete module: a `ModuleNotFoundError` for `numpy`
is re-raised unchanged by both guards. -/
theorem C7_optional_modules_witness :
    spellcheck_guard (.missing "numpy" "No module named numpy")
        = .reraised "numpy" "No module named numpy" ∧
    vbiview_guard (.missing "numpy" "No module named numpy")
        = .reraised "numpy" "No module named numpy" :=
  ⟨(C7_optional_modules "numpy" "No module named numpy").2.2.1 (by decide),
   (C7_optional_modules "numpy" "No module named numpy").2.2.2.2 (by decide)⟩

/-- C8: exit code 0 on clean end-of-stream and on keyboard interrupt
(`record` swallows `KeyboardInterrupt` and returns normally); a chunk-reading
command invoked with no input file while stdin is a terminal raises a usage
error before reading any data — the result is independent of the stream and
zero bytes are consumed — and exits non-zero. -/
theorem C8_exit_codes (stream : List Nat) (frames : List (List Nat))
    (interrupt : Option Nat) :
    (∀ other : List Nat,
        chunkreader_run true stream = chunkreader_run true other) ∧
    ((chunkreader_run true stream).2 = 0) ∧
    ((chunkreader_run true stream).1
        = .usageError "No input file and stdin is a tty - exiting.") ∧
    (exit_code (chunkreader_run true stream).1 ≠ 0) ∧
    ((record_run frames interrupt).1 = .ok) ∧
    (exit_code (record_run frames interrupt).1 = 0) ∧
    (exit_code (chunkreader_run false stream).1 = 0) := by
  refine ⟨fun other => rfl, rfl, rfl, by simp [chunkreader_run, exit_code], ?_, ?_, rfl⟩
  · cases interrupt <;> rfl
  · cases interrupt <;> rfl

/-- Witness for C8 at concrete inputs: the tty guard rejects with the usage
error regardless of the stream, and an interrupted `record` run exits 0. -/
theorem C8_exit_codes_witness :
    ((chunkreader_run true [37]).1
        = .usageError "No input file and stdin is a tty - exiting.") ∧
    (exit_code (record_run [[1]] (some 0)).1 = 0) :=
  ⟨(C8_exit_codes [37] [] none).2.2.1,
   (C8_exit_codes [] [[1]] (some 0)).2.2.2.2.2.1⟩

/-- C9: supplying any page (`-p`) or subpage (`-s`) value makes the `filter`
command paginate even without the `-P` flag; with both sets empty and no
`-P` flag the packets pass through unpaginated. -/
theorem C9_pages_force_pagination (pages subpages : List Nat) (flag : Bool) :
    (pages ≠ [] ∨ subpages ≠ [] →
        ∃ ps ss, filter_dispatch pages subpages flag = .paginated ps ss) ∧
    (filter_dispatch [] [] false = .passthrough) := by
  constructor
  · intro h
    by_cases hp : pages.isEmpty <;> by_cases hs : subpages.isEmpty
    · rcases h with h | h
      · exact absurd (List.isEmpty_iff.mp hp) h
      · exact absurd (List.isEmpty_iff.mp hs) h
    · exact ⟨List.range 0x900, subpages, by simp [filter_dispatch, hp, hs]⟩
    · exact ⟨pages, List.range 0x3f7f, by simp [filter_dispatch, hp, hs]⟩
    · exact ⟨pages, subpages, by simp [filter_dispatch, hp, hs]⟩
  · rfl

/-- Witness for C9: a single page value with no `-P` flag still paginates. -/
theorem C9_pages_force_pagination_witness :
    ∃ ps ss, filter_dispatch [0x100] [] false = .paginated ps ss :=
  (C9_pages_force_pagination [0x100] [] false).1 (Or.inl (by decide))

/-- C10: with no pages or subpages given, `filter` and `squash` default the
accepted sets to `range(0x900)` and `range(0x3f7f)`; ranges are half-open, so
the default filter excludes a header whose decoded subpage equals 0x3F7F —
the maximum value representable under the 0x3f7f subpage mask — and any page
key ≥ 0x900, while accepting everything below those bounds. -/
theorem C10_default_ranges (page subpage : Nat) :
    (squash_pages [] = List.range 0x900) ∧
    (squash_subpages [] = List.range 0x3f7f) ∧
    (filter_dispatch [] [] true
        = .paginated (List.range 0x900) (List.range 0x3f7f)) ∧
    (subpage &&& 0x3f7f ≤ 0x3f7f) ∧
    (paginate_accepts (List.range 0x900) (List.range 0x3f7f) page 0x3f7f
        = false) ∧
    (0x900 ≤ page →
        paginate_accepts (List.range 0x900) (List.range 0x3f7f) page subpage
          = false) ∧
    (page < 0x900 → subpage < 0x3f7f →
        paginate_accepts (List.range 0x900) (List.range 0x3f7f) page subpage
          = true) := by
  refine ⟨?_, ?_, ?_, Nat.and_le_right, ?_, ?_, ?_⟩
  · simp only [squash_pages, List.isEmpty_nil, if_true]
  · simp only [squash_subpages, List.isEmpty_nil, if_true]
  · simp only [filter_dispatch, List.isEmpty_nil, if_true]
  · rw [paginate_accepts, contains_range_eq, contains_range_eq]
    simp
  · intro h
    rw [paginate_accepts, contains_range_eq, contains_range_eq,
      decide_eq_false (by omega : ¬ page < 0x900)]
    simp
  · intro h1 h2
    rw [paginate_accepts, contains_range_eq, contains_range_eq,
      decide_eq_true h1, decide_eq_true h2]
    rfl

/-- Witness for C10: page 0x900 itself is rejected by the default filter,
and page 0x8FF with subpage 0x3F7E is accepted. -/
theorem C10_default_ranges_witness :
    (paginate_accepts (List.range 0x900) (List.range 0x3f7f) 0x900 5
        = false) ∧
    (paginate_accepts (List.range 0x900) (List.range 0x3f7f) 0x8ff 0x3f7e
        = true) :=
  ⟨(C10_default_ranges 0x900 5).2.2.2.2.2.1 (by decide),
   (C10_default_ranges 0x8ff 0x3f7e).2.2.2.2.2.2 (by decide) (by decide)⟩

end Teletext
